import Mathlib

/-!
# Verification of the smart-mobile-backend search-and-rank engine

Shallow embedding of the search engine implemented in
`src/utils/searchAlgorithm.js` (the `SearchAlgorithm` class) and of the
service wrapper with its result cache in `src/services/searchService.js`
(the `SearchService` class), together with the search-parameter validation
chain `validateProductSearch` from the middleware.

Modelling conventions:
* JavaScript numbers are modelled as `ℚ` (scores, prices, ratings) or `ℤ`
  (integer counts, timestamps, pagination indices).
* A JavaScript string field that may be `undefined` is modelled as `""`
  when the code only ever uses it in truthiness tests (`""` and `undefined`
  are both falsy there); fields whose presence matters structurally
  (`brand`, `category`, `average_rating`, `original_price`) are `Option`s.
* `Array.prototype.sort` with a comparator is modelled as a stable
  insertion sort placing `a` before `b` exactly when the comparator is
  `≤ 0`, which matches the stable sort mandated by the ECMAScript spec
  for consistent comparators.
* `Map` objects are modelled as association lists with JavaScript `Map`
  semantics: `set` replaces in place or appends, `delete` removes the
  entry, iteration follows insertion order.
-/

attribute [local semireducible] Rat.mul Rat.inv Rat.add Rat.sub

namespace SmartSearch

/-! ## Basic string and list helpers mirroring JavaScript primitives -/

/-- `needle` occurs as a contiguous sublist of `hay`
(JavaScript `String.prototype.includes` on the underlying characters). -/
def subList (needle : List Char) : List Char → Bool
  | [] => needle.isEmpty
  | c :: t => needle.isPrefixOf (c :: t) || subList needle t

/-- JavaScript `hay.includes(needle)`. -/
def strContains (hay needle : String) : Bool :=
  subList needle.data hay.data

/-- JavaScript `s.toLowerCase()` (character-wise lowering). -/
def lowerStr (s : String) : String :=
  ⟨s.data.map Char.toLower⟩

/-- JavaScript `s.trim()`: strip whitespace from both ends. -/
def trimStr (s : String) : String :=
  ⟨((s.data.dropWhile Char.isWhitespace).reverse.dropWhile Char.isWhitespace).reverse⟩

/-- Accumulator pass for `splitWs`: `cur` holds the characters of the
word currently being read, in reverse. -/
def wordsAux : List Char → List Char → List String
  | [], cur => if cur.isEmpty then [] else [⟨cur.reverse⟩]
  | c :: rest, cur =>
      if c.isWhitespace then
        if cur.isEmpty then wordsAux rest [] else ⟨cur.reverse⟩ :: wordsAux rest []
      else wordsAux rest (c :: cur)

/-- JavaScript `s.split(/\s+/)` on an input with no leading whitespace:
split on whitespace runs, dropping empty fragments. -/
def splitWs (s : String) : List String :=
  wordsAux s.data []

/-- Remove duplicates keeping the first occurrence
(JavaScript `[...new Set(xs)]`), with an accumulator of already-seen
elements so that the recursion is structural. -/
def dedupAux {α : Type} [DecidableEq α] (seen : List α) : List α → List α
  | [] => []
  | x :: xs => if x ∈ seen then dedupAux seen xs else x :: dedupAux (x :: seen) xs

/-- Remove duplicates keeping the first occurrence. -/
def dedupKeepFirst {α : Type} [DecidableEq α] (l : List α) : List α :=
  dedupAux [] l

/-- JavaScript `Array.prototype.slice(start, stop)` with possibly negative
indices: negative indices count from the end, then the window is clamped
to the array bounds. -/
def jsSlice {α : Type} (l : List α) (start stop : Int) : List α :=
  let len : Int := l.length
  let lo : Int := if start < 0 then max (len + start) 0 else min start len
  let hi : Int := if stop < 0 then max (len + stop) 0 else min stop len
  (l.drop lo.toNat).take (hi - lo).toNat

/-- Stable insertion of `x` into `l`: `x` is placed before the first
element `y` with `le x y`, so ties keep the earlier element first. -/
def stableInsert {α : Type} (le : α → α → Bool) (x : α) : List α → List α
  | [] => [x]
  | y :: ys => if le x y then x :: y :: ys else y :: stableInsert le x ys

/-- Stable sort modelling `Array.prototype.sort` with a consistent
comparator, where `le a b` states that `a` may stay before `b`. -/
def insertionSortJS {α : Type} (le : α → α → Bool) : List α → List α
  | [] => []
  | x :: xs => stableInsert le x (insertionSortJS le xs)

/-- One row update of the Levenshtein dynamic program: given the previous
row and the value `left` already computed for the current row, produce the
rest of the current row along `ys`. -/
def levRow (x : Char) : List Char → List Nat → Nat → List Nat
  | [], _, _ => []
  | y :: ys, pDiag :: rest, left =>
      let pUp := rest.headD 0
      let cost := if x = y then pDiag else pDiag + 1
      let cur := min cost (min (pUp + 1) (left + 1))
      cur :: levRow x ys rest cur
  | _ :: _, [], _ => []

/-- Levenshtein edit distance between two character lists, computed row by
row so that concrete instances evaluate cheaply. -/
def lev (xs ys : List Char) : Nat :=
  let row0 : List Nat := List.range (ys.length + 1)
  let final := xs.foldl (fun acc x => (acc.1 + 1, (acc.1 + 1) :: levRow x ys acc.2 (acc.1 + 1)))
    (0, row0)
  final.2.getLastD 0

/-! ## Data model (`CatalogItem` and friends, from the repository schema) -/

/-- Denormalized brand record attached to a product. -/
structure BrandRef where
  id : Nat
  name : String := ""
  slug : String := ""
deriving DecidableEq, Repr

/-- Denormalized category record attached to a product. -/
structure CategoryRef where
  id : Nat
  name : String := ""
  slug : String := ""
deriving DecidableEq, Repr

/-- A catalog item as consumed by the search pipeline.  String fields that
the code only tests for truthiness default to `""`; `keywords` is the
derived keyword list injected by `performTextSearch`. -/
structure Product where
  id : Nat
  name : String := ""
  model : String := ""
  description : String := ""
  brand : Option BrandRef := none
  category : Option CategoryRef := none
  price : ℚ := 0
  original_price : Option ℚ := none
  stock_quantity : Int := 0
  status : String := "active"
  is_featured : Bool := false
  is_bestseller : Bool := false
  average_rating : Option ℚ := none
  created_at : Int := 0
  keywords : List String := []
deriving DecidableEq, Repr

/-- One `(field, matched value)` explanation entry of a match record. -/
structure MatchPair where
  field : String
  value : String
deriving DecidableEq, Repr

/-- A matcher output record: `{ item, score, matches, algorithm }`. -/
structure MatchRec where
  item : Product
  score : ℚ
  matchesList : List MatchPair
  algorithm : String
deriving DecidableEq, Repr

/-- The caller-supplied search parameters object; `none` models an absent
property (JavaScript `undefined`). -/
structure SearchParams where
  query : Option String := none
  brand : Option String := none
  category : Option String := none
  minPrice : Option ℚ := none
  maxPrice : Option ℚ := none
  inStock : Option Bool := none
  sortBy : Option String := none
  sortOrder : Option String := none
  limit : Option Int := none
  offset : Option Int := none
deriving DecidableEq, Repr

/-- The structured filter set handed to `applyBasicFilters` after
destructuring in `search` (`""` = no brand/category filter, `none`
for `maxPrice` models the `Infinity` default, which rejects nothing). -/
structure BasicFilters where
  brand : String
  category : String
  minPrice : ℚ
  maxPrice : Option ℚ
  inStock : Bool
deriving DecidableEq, Repr

/-! ## Filter Stage (`SearchAlgorithm.applyBasicFilters`) -/

/-- `applyBasicFilters` from `searchAlgorithm.js`: keep a product unless
one of the early-return conditions fires.  The price bound checks are
negations of the rejection tests `price < minPrice` / `price > maxPrice`;
`status !== "active"` rejects everything not active. -/
def applyBasicFilters (products : List Product) (f : BasicFilters) : List Product :=
  products.filter (fun p =>
    (f.brand == "" || (match p.brand with
      | some b => b.slug == f.brand
      | none => false)) &&
    (f.category == "" || (match p.category with
      | some c => c.slug == f.category
      | none => false)) &&
    decide (f.minPrice ≤ p.price) &&
    (match f.maxPrice with
      | some mp => decide (p.price ≤ mp)
      | none => true) &&
    (!f.inStock || decide (p.stock_quantity > 0)) &&
    (p.status == "active"))

/-! ## Matching Stage -/

/-- `generateKeywords` from `searchAlgorithm.js`: lowercase name tokens,
brand name, category name and model, keeping only fragments longer than
one character, deduplicated keeping first occurrences. -/
def generateKeywords (p : Product) : List String :=
  let ks :=
    (if p.name == "" then [] else splitWs (lowerStr p.name)) ++
    (match p.brand with
      | some b => if b.name == "" then [] else [lowerStr b.name]
      | none => []) ++
    (match p.category with
      | some c => if c.name == "" then [] else [lowerStr c.name]
      | none => []) ++
    (if p.model == "" then [] else [lowerStr p.model])
  dedupKeepFirst (ks.filter (fun k => decide (k.length > 1)))

/-- The field values the fuzzy engine searches, in the order of the
`keys` configuration of `fuseOptions`: name, brand name, category name,
description, model, derived keywords. -/
def fuseFields (p : Product) : List String :=
  [p.name,
   (match p.brand with | some b => b.name | none => ""),
   (match p.category with | some c => c.name | none => ""),
   p.description,
   p.model] ++ p.keywords

/-- Normalized edit distance of the lowercased query against one
lowercased field value: edit distance divided by the query length
(a score of `0` is a perfect match). -/
def normScore (query fieldVal : String) : ℚ :=
  (lev (lowerStr query).data (lowerStr fieldVal).data : ℚ) / (max query.length 1 : ℚ)

/-- The fuzzy score of a product for a query: the best (smallest)
normalized distance over all searched fields, starting from the worst
possible score `1`. -/
def fuseScore (query : String) (p : Product) : ℚ :=
  (fuseFields p).foldl (fun acc f => min acc (normScore query f)) 1

/-- Modelled from the spec and from the library contract documented in the
source itself: the `Fuse` engine used by `SearchAlgorithm.fuzzySearch` is
a third-party dependency not present in the repository, so its scoring is
modelled from the `fuseOptions` comment `0.0 = perfect match, 1.0 = match
anything` (threshold `0.4`, `minMatchCharLength: 2`) and the spec's §4.2
description of the fuzzy matcher: an edit-distance-tolerant match across
the configured fields that rejects matches beyond the normalized distance
threshold `0.4` and fragments shorter than `2` characters.  Crucially,
`fuzzySearch` in the source only spreads each `Fuse` result and tags it
with `algorithm: "fuzzy"`, so the record keeps the raw library score
(`0` = perfect match) unchanged — no inversion happens anywhere. -/
def fuzzySearch (products : List Product) (query : String) : List MatchRec :=
  products.filterMap (fun p =>
    let s := fuseScore query p
    if query.length ≥ 2 ∧ s ≤ 2/5 then
      some { item := p, score := s, matchesList := [], algorithm := "fuzzy" }
    else none)

/-- `findExactMatches` from `searchAlgorithm.js`: case-insensitive
substring containment of the whole query against name (+0.9),
model (+0.8) and brand name (+0.7); a record is emitted only when the
accumulated score is positive, capped at `1`. -/
def findExactMatches (products : List Product) (query : String) : List MatchRec :=
  let queryLower := lowerStr query
  products.filterMap (fun p =>
    let hitName := p.name != "" && strContains (lowerStr p.name) queryLower
    let hitModel := p.model != "" && strContains (lowerStr p.model) queryLower
    let hitBrand := match p.brand with
      | some b => b.name != "" && strContains (lowerStr b.name) queryLower
      | none => false
    let score : ℚ :=
      (if hitName then 9/10 else 0) + (if hitModel then 8/10 else 0) +
      (if hitBrand then 7/10 else 0)
    let ms : List MatchPair :=
      (if hitName then [{ field := "name", value := p.name }] else []) ++
      (if hitModel then [{ field := "model", value := p.model }] else []) ++
      (if hitBrand then
        [{ field := "brand", value := (p.brand.map (fun b => b.name)).getD "" }]
      else [])
    if score > 0 then
      some { item := p, score := min score 1, matchesList := ms, algorithm := "exact" }
    else none)

/-- Accumulate the partial-matcher contribution of a single query word on
a product, in the source's field order: name (+0.3), brand name (+0.2),
category name (+0.15), model (+0.15). -/
def partialWordStep (p : Product) (acc : ℚ × List MatchPair) (w : String) :
    ℚ × List MatchPair :=
  let acc := if p.name != "" && strContains (lowerStr p.name) w then
      (acc.1 + 3/10, acc.2 ++ [{ field := "name", value := p.name }]) else acc
  let acc := match p.brand with
    | some b =>
        if b.name != "" && strContains (lowerStr b.name) w then
          (acc.1 + 2/10, acc.2 ++ [{ field := "brand", value := b.name }]) else acc
    | none => acc
  let acc := match p.category with
    | some c =>
        if c.name != "" && strContains (lowerStr c.name) w then
          (acc.1 + 3/20, acc.2 ++ [{ field := "category", value := c.name }]) else acc
    | none => acc
  if p.model != "" && strContains (lowerStr p.model) w then
    (acc.1 + 3/20, acc.2 ++ [{ field := "model", value := p.model }]) else acc

/-- `findPartialMatches` from `searchAlgorithm.js`: the query is split on
whitespace and each word's case-insensitive containment contributions are
accumulated per product; a record is emitted only for positive scores,
capped at `1`. -/
def findPartialMatches (products : List Product) (query : String) : List MatchRec :=
  let queryWords := splitWs (lowerStr query)
  products.filterMap (fun p =>
    let acc := queryWords.foldl (partialWordStep p) (0, [])
    if acc.1 > 0 then
      some { item := p, score := min acc.1 1, matchesList := acc.2, algorithm := "partial" }
    else none)

/-! ## Merge & Score Stage -/

/-- One step of `combineSearchResults`: if a record for the same product
id is already in the accumulator, only its score is raised to the maximum
of the two; otherwise the record is appended (JavaScript `Map` keyed by
`result.item.id`, iterated in insertion order). -/
def insertCombined (acc : List MatchRec) (r : MatchRec) : List MatchRec :=
  if acc.any (fun e => e.item.id == r.item.id) then
    acc.map (fun e => if e.item.id == r.item.id then { e with score := max e.score r.score } else e)
  else acc ++ [r]

/-- `combineSearchResults` from `searchAlgorithm.js`: fold all matcher
outputs, in order, into a map keyed by product id. -/
def combineSearchResults (resultArrays : List (List MatchRec)) : List MatchRec :=
  resultArrays.flatten.foldl insertCombined []

/-- `performTextSearch` from `searchAlgorithm.js`: inject derived
keywords, run the three matchers in the fixed order fuzzy, exact,
partial, and merge their outputs. -/
def performTextSearch (products : List Product) (query : String) : List MatchRec :=
  let searchableProducts := products.map (fun p => { p with keywords := generateKeywords p })
  combineSearchResults
    [fuzzySearch searchableProducts query,
     findExactMatches searchableProducts query,
     findPartialMatches searchableProducts query]

/-- The boost cascade of `applyAdvancedScoring`: multiplicative boosts
×1.2 (featured), ×1.15 (bestseller), ×1.1 (rating > 4), ×1.05
(stock > 10), ×0.5 (stock ≤ 0), applied in this order, then the score is
capped at `1` (there is no lower clamp).  `average_rating.getD 0 > 4`
models `product.average_rating > 4`, which is false when the rating is
absent (`NaN` comparisons are false). -/
def boostScore (p : Product) (score : ℚ) : ℚ :=
  let s1 := if p.is_featured then score * (6/5) else score
  let s2 := if p.is_bestseller then s1 * (23/20) else s1
  let s3 := if p.average_rating.getD 0 > 4 then s2 * (11/10) else s2
  let s4 := if p.stock_quantity > 10 then s3 * (21/20) else s3
  let s5 := if p.stock_quantity ≤ 0 then s4 * (1/2) else s4
  min s5 1

/-- `applyAdvancedScoring` from `searchAlgorithm.js`. -/
def applyAdvancedScoring (results : List MatchRec) : List MatchRec :=
  results.map (fun r => { r with score := boostScore r.item r.score })

/-! ## Sort & Paginate Stage -/

/-- `a.localeCompare(b)` modelled through the code-point order on
strings: negative when `a` sorts before `b`, `0` on equality. -/
def localeCmp (a b : String) : ℚ :=
  if a < b then -1 else if a = b then 0 else 1

/-- The comparator body of `sortResults` (the `switch` on `sortBy`):
note the source has no `stock` or `date` cases, so those keys fall into
the `default` arm, which is the relevance comparator. -/
def sortCmp (sortBy : String) (a b : MatchRec) : ℚ :=
  if sortBy == "relevance" then b.score - a.score
  else if sortBy == "price" then a.item.price - b.item.price
  else if sortBy == "name" then localeCmp a.item.name b.item.name
  else if sortBy == "rating" then
    b.item.average_rating.getD 0 - a.item.average_rating.getD 0
  else b.score - a.score

/-- `sortResults` from `searchAlgorithm.js`: stable sort by the selected
comparator multiplied by `1` for `"asc"` and `-1` otherwise. -/
def sortResults (results : List MatchRec) (sortBy sortOrder : String) : List MatchRec :=
  let orderMultiplier : ℚ := if sortOrder == "asc" then 1 else -1
  insertionSortJS (fun a b => decide (sortCmp sortBy a b * orderMultiplier ≤ 0)) results

/-! ## Popularity Tracker -/

/-- Increment the counter stored for `k` in an insertion-ordered counter
map (`Map.get`/`Map.set` keep the key's position; a new key is appended). -/
def bumpCount (m : List (String × Nat)) (k : String) : List (String × Nat) :=
  if m.any (fun e => e.1 == k) then
    m.map (fun e => if e.1 == k then (e.1, e.2 + 1) else e)
  else m ++ [(k, 1)]

/-- `logSearchAnalytics` from `searchAlgorithm.js`: when the raw query is
truthy, increment the counter for its lowercased, trimmed form. -/
def logSearchAnalytics (popularSearches : List (String × Nat)) (query : String) :
    List (String × Nat) :=
  if query != "" then bumpCount popularSearches (trimStr (lowerStr query)) else popularSearches

/-- `getPopularSearches` from `searchAlgorithm.js`: entries sorted by
descending count, truncated to `limit`. -/
def getPopularSearches (popularSearches : List (String × Nat)) (limit : Nat) :
    List (String × Nat) :=
  (insertionSortJS (fun a b => decide ((b.2 : Int) - (a.2 : Int) ≤ 0)) popularSearches).take limit

/-! ## The engine entry point (`SearchAlgorithm.search`) -/

/-- One item of the returned `results` array:
`{ ...result.item, _searchScore, _matches }`. -/
structure ResultItem where
  item : Product
  score : ℚ
  matchesList : List MatchPair
deriving DecidableEq, Repr

/-- The `metadata` object of a search response.  The `duration` timing and
the `filters` echo carry no information used by any claim and are not
modelled. -/
structure Metadata where
  total : Nat
  limit : Int
  offset : Int
  hasNext : Bool
  hasPrev : Bool
  query : String
deriving DecidableEq, Repr

/-- A search response `{ results, metadata }`. -/
structure SearchResponse where
  results : List ResultItem
  metadata : Metadata
deriving DecidableEq, Repr

/-- `SearchAlgorithm.search`: destructure the parameters with their
defaults (a default applies only to an absent property), filter, match
(score `1` with no matches when no non-blank query is supplied), score,
sort, paginate with `Array.slice`, and record the query in the popularity
tracker.  Returns the response together with the updated popularity map. -/
def search (popularSearches : List (String × Nat)) (products : List Product)
    (searchParams : SearchParams) : SearchResponse × List (String × Nat) :=
  let query := searchParams.query.getD ""
  let brand := searchParams.brand.getD ""
  let category := searchParams.category.getD ""
  let minPrice := searchParams.minPrice.getD 0
  let maxPrice := searchParams.maxPrice
  let inStock := searchParams.inStock.getD false
  let sortBy := searchParams.sortBy.getD "relevance"
  let sortOrder := searchParams.sortOrder.getD "desc"
  let limit := searchParams.limit.getD 50
  let offset := searchParams.offset.getD 0
  let filteredProducts := applyBasicFilters products
    { brand := brand, category := category, minPrice := minPrice,
      maxPrice := maxPrice, inStock := inStock }
  let searchResults :=
    if (trimStr query).length > 0 then
      performTextSearch filteredProducts (trimStr query)
    else
      filteredProducts.map (fun p =>
        { item := p, score := 1, matchesList := [], algorithm := "" })
  let searchResults := applyAdvancedScoring searchResults
  let searchResults := sortResults searchResults sortBy sortOrder
  let totalResults := searchResults.length
  let paginatedResults := jsSlice searchResults offset (offset + limit)
  let popularSearches := logSearchAnalytics popularSearches query
  ({ results := paginatedResults.map (fun r =>
       { item := r.item, score := r.score, matchesList := r.matchesList }),
     metadata :=
       { total := totalResults, limit := limit, offset := offset,
         hasNext := decide (offset + limit < (totalResults : Int)),
         hasPrev := decide (offset > 0), query := query } },
   popularSearches)

/-! ## Result Cache and service layer (`searchService.js`) -/

/-- JavaScript `v || d` for an optional integer (`0` is falsy). -/
def jsOrInt (v : Option Int) (d : Int) : Int :=
  match v with
  | some n => if n = 0 then d else n
  | none => d

/-- JavaScript `v || d` for an optional rational (`0` is falsy). -/
def jsOrQ (v : Option ℚ) (d : ℚ) : ℚ :=
  match v with
  | some q => if q = 0 then d else q
  | none => d

/-- JavaScript `v || d` for an optional string (`""` is falsy). -/
def jsOrStr (v : Option String) (d : String) : String :=
  match v with
  | some s => if s = "" then d else s
  | none => d

/-- The canonical key data built by `generateCacheKey`: every request
field with its falsy-default substituted (`maxPrice || ''` collapses an
absent or zero max price to the empty-string sentinel, modelled `none`).
The base64-of-JSON encoding is injective on this record, so the record
itself serves as the key. -/
structure KeyData where
  query : String
  brand : String
  category : String
  minPrice : ℚ
  maxPrice : Option ℚ
  inStock : Bool
  sortBy : String
  sortOrder : String
  limit : Int
  offset : Int
deriving DecidableEq, Repr

/-- `generateCacheKey` from `searchService.js`. -/
def generateCacheKey (searchParams : SearchParams) : KeyData :=
  { query := jsOrStr searchParams.query ""
    brand := jsOrStr searchParams.brand ""
    category := jsOrStr searchParams.category ""
    minPrice := jsOrQ searchParams.minPrice 0
    maxPrice := match searchParams.maxPrice with
      | some q => if q = 0 then none else some q
      | none => none
    inStock := searchParams.inStock.getD false
    sortBy := jsOrStr searchParams.sortBy "relevance"
    sortOrder := jsOrStr searchParams.sortOrder "desc"
    limit := jsOrInt searchParams.limit 50
    offset := jsOrInt searchParams.offset 0 }

/-- An enhanced result item as produced by `enhanceSearchResults`:
the engine's result plus stock presentation fields.  The `price_display`
string formatting and the `toFixed(2)` rounding of `discount_amount` are
abstracted to the underlying rational values. -/
structure EnhancedItem where
  base : ResultItem
  in_stock : Bool
  stock_status : String
  price_display : ℚ
  discount_amount : ℚ
deriving DecidableEq, Repr

/-- The value the service caches and returns. -/
structure EnhancedResponse where
  results : List EnhancedItem
  metadata : Metadata
deriving DecidableEq, Repr

/-- A cache entry `{ data, expiry }` with an absolute expiry instant. -/
structure CacheEntry where
  data : EnhancedResponse
  expiry : Int
deriving DecidableEq, Repr

/-- The mutable state of a `SearchService`: the result cache and the
popularity counter of its embedded `SearchAlgorithm`. -/
structure ServiceState where
  searchCache : List (KeyData × CacheEntry)
  popularSearches : List (String × Nat)
deriving DecidableEq, Repr

/-- `Map.get` on an association list (first matching key). -/
def lookupKey {κ β : Type} [DecidableEq κ] : List (κ × β) → κ → Option β
  | [], _ => none
  | kv :: rest, k => if kv.1 = k then some kv.2 else lookupKey rest k

/-- `Map.set` on an association list: replace in place or append. -/
def mapSet {κ β : Type} [DecidableEq κ] : List (κ × β) → κ → β → List (κ × β)
  | [], k, v => [(k, v)]
  | kv :: rest, k, v => if kv.1 = k then (k, v) :: rest else kv :: mapSet rest k v

/-- `Map.delete` on an association list: drop the entry for the key. -/
def deleteKey {κ β : Type} [DecidableEq κ] : List (κ × β) → κ → List (κ × β)
  | [], _ => []
  | kv :: rest, k => if kv.1 = k then rest else kv :: deleteKey rest k

/-- The fixed TTL `this.cacheExpiry = 5 * 60 * 1000` milliseconds. -/
def cacheExpiry : Int := 5 * 60 * 1000

/-- `getFromCache` from `searchService.js`, evaluated at instant `now`:
a present entry past its expiry is deleted and treated as a miss.
Returns the hit, if any, and the possibly-shrunk cache. -/
def getFromCache (cache : List (KeyData × CacheEntry)) (now : Int) (key : KeyData) :
    Option EnhancedResponse × List (KeyData × CacheEntry) :=
  match lookupKey cache key with
  | none => (none, cache)
  | some e => if now > e.expiry then (none, deleteKey cache key) else (some e.data, cache)

/-- `clearExpiredCache` from `searchService.js`. -/
def clearExpiredCache (cache : List (KeyData × CacheEntry)) (now : Int) :
    List (KeyData × CacheEntry) :=
  cache.filter (fun kv => !(decide (now > kv.2.expiry)))

/-- `setCache` from `searchService.js`: sweep expired entries when more
than 100 entries are stored, then store the value with expiry
`now + cacheExpiry`. -/
def setCache (cache : List (KeyData × CacheEntry)) (key : KeyData)
    (data : EnhancedResponse) (now : Int) : List (KeyData × CacheEntry) :=
  let cache := if cache.length > 100 then clearExpiredCache cache now else cache
  mapSet cache key { data := data, expiry := now + cacheExpiry }

/-- `getStockStatus` from `searchService.js`. -/
def getStockStatus (quantity : Int) : String :=
  if quantity ≤ 0 then "out_of_stock"
  else if quantity ≤ 5 then "low_stock"
  else if quantity ≤ 20 then "medium_stock"
  else "in_stock"

/-- `enhanceSearchResults` from `searchService.js`: annotate every result
with stock and price presentation data; the metadata passes through. -/
def enhanceSearchResults (searchResult : SearchResponse) : EnhancedResponse :=
  { results := searchResult.results.map (fun r =>
      { base := r
        in_stock := decide (r.item.stock_quantity > 0)
        stock_status := getStockStatus r.item.stock_quantity
        price_display := r.item.price
        discount_amount := match r.item.original_price with
          | some op => op - r.item.price
          | none => 0 })
    metadata := searchResult.metadata }

/-- The `emptyResult` built by `searchProducts` when the candidate list
from the repository is empty: note `hasNext` and `hasPrev` are hard-coded
`false`. -/
def emptyResult (searchParams : SearchParams) : EnhancedResponse :=
  { results := []
    metadata :=
      { total := 0
        limit := jsOrInt searchParams.limit 50
        offset := jsOrInt searchParams.offset 0
        hasNext := false
        hasPrev := false
        query := jsOrStr searchParams.query "" } }

/-- `SearchService.searchProducts` at instant `now`, with the candidate
list `products` standing for the Catalog Repository answer: serve a live
cached entry verbatim; short-circuit an empty candidate list to
`emptyResult` (cached); otherwise run the engine, enhance, and cache. -/
def searchProducts (st : ServiceState) (now : Int) (products : List Product)
    (searchParams : SearchParams) : EnhancedResponse × ServiceState :=
  match getFromCache st.searchCache now (generateCacheKey searchParams) with
  | (some cached, cache1) => (cached, { st with searchCache := cache1 })
  | (none, cache1) =>
    if products.isEmpty then
      (emptyResult searchParams,
       { st with searchCache :=
           setCache cache1 (generateCacheKey searchParams) (emptyResult searchParams) now })
    else
      (enhanceSearchResults (search st.popularSearches products searchParams).1,
       { searchCache := setCache cache1 (generateCacheKey searchParams)
           (enhanceSearchResults (search st.popularSearches products searchParams).1) now,
         popularSearches := (search st.popularSearches products searchParams).2 })

/-! ## API-layer validation (`validateProductSearch` in the middleware) -/

/-- The `limit` rule of `validateProductSearch`: optional, else an integer
in `[1, 100]`; a violation makes `handleValidationErrors` answer 400
instead of clamping. -/
def validLimitParam : Option Int → Bool
  | none => true
  | some v => decide (1 ≤ v) && decide (v ≤ 100)

/-- The `offset` rule of `validateProductSearch`: optional, else a
non-negative integer. -/
def validOffsetParam : Option Int → Bool
  | none => true
  | some v => decide (0 ≤ v)

/-! ## Specification-side definitions used to state the claims -/

/-- The merge described by the spec, stated independently of the fold in
`combineSearchResults`: one record per product id in order of first
occurrence, namely the first record produced for that id with only its
score replaced by the running maximum of all scores produced for it. -/
def mergeSpec (all : List MatchRec) : List MatchRec :=
  (dedupKeepFirst (all.map (fun r => r.item.id))).filterMap (fun i =>
    match all.filter (fun r => r.item.id == i) with
    | [] => none
    | r :: rest => some { r with score := (rest.map (fun e => e.score)).foldl max r.score })

/-- The filter predicate exactly as the spec phrases the Filter Stage:
active status, brand and category matches when specified, inclusive price
bounds, positive stock when in-stock-only is requested. -/
def filterSpec (f : BasicFilters) (p : Product) : Prop :=
  p.status = "active" ∧
  (f.brand ≠ "" → ∃ b, p.brand = some b ∧ b.slug = f.brand) ∧
  (f.category ≠ "" → ∃ c, p.category = some c ∧ c.slug = f.category) ∧
  f.minPrice ≤ p.price ∧
  (∀ mp, f.maxPrice = some mp → p.price ≤ mp) ∧
  (f.inStock = true → p.stock_quantity > 0)

/-- The count stored for a query in the popularity map (`0` if absent). -/
def countOf (m : List (String × Nat)) (k : String) : Nat :=
  (lookupKey m k).getD 0

/-! ## Concrete inputs used by counterexamples and witnesses -/

/-- A product whose name equals the probe query exactly (edit distance 0). -/
def fuzzyExactProd : Product :=
  { id := 1, name := "iphone", stock_quantity := 5 }

/-- A product whose name is one edit away from the probe query. -/
def fuzzyTypoProd : Product :=
  { id := 2, name := "iphane", stock_quantity := 5 }

/-- A featured product matching the probe query only through its category
name, giving it a query-derived score of `1/5` that no boost clamps. -/
def featuredProd : Product :=
  { id := 1, name := "AAA", category := some { id := 7, name := "Phones", slug := "phones" },
    stock_quantity := 5, is_featured := true }

/-- The non-featured twin of `featuredProd` with the same query-derived
score. -/
def plainProd : Product :=
  { id := 2, name := "BBB", category := some { id := 7, name := "Phones", slug := "phones" },
    stock_quantity := 5, is_featured := false }

/-- Three bare active products used by the pagination counterexample. -/
def threeProds : List Product := [{ id := 1 }, { id := 2 }, { id := 3 }]

/-- A request with query `"phone"` and every other field absent, so the
sort key and direction take their defaults `relevance` and `desc`. -/
def phoneParams : SearchParams := { query := some "phone" }

/-- A request carrying a present-but-out-of-range limit and offset. -/
def badRangeParams : SearchParams := { limit := some 0, offset := some (-5) }

/-- A request whose offset is positive, used on the empty-candidate path. -/
def offsetTenParams : SearchParams := { offset := some 10 }

/-- A request with query `"pixel"`, used by the popularity counterexample. -/
def pixelParams : SearchParams := { query := some "pixel" }

/-- A service state that already caches an unexpired answer for
`pixelParams`. -/
def pixelCachedState : ServiceState :=
  { searchCache := [(generateCacheKey pixelParams,
      { data := emptyResult pixelParams, expiry := 1000 })],
    popularSearches := [] }

/-- A match record with high score and high stock. -/
def stockRecHigh : MatchRec :=
  { item := { id := 1, stock_quantity := 9 }, score := 7/10, matchesList := [],
    algorithm := "exact" }

/-- A match record with low score and low stock. -/
def stockRecLow : MatchRec :=
  { item := { id := 2, stock_quantity := 2 }, score := 2/10, matchesList := [],
    algorithm := "exact" }

/-- The empty service state. -/
def emptyState : ServiceState := { searchCache := [], popularSearches := [] }

/-- A one-product candidate list matching the query `"pixel"`. -/
def pixelProds : List Product := [{ id := 1, name := "pixel" }]

/-- The record the fuzzy matcher emits for `fuzzyExactProd` on query
`"iphone"`. -/
def fuzzyExactRec : MatchRec :=
  { item := fuzzyExactProd, score := 0, matchesList := [], algorithm := "fuzzy" }

/-! ## Helper lemmas about the list primitives -/

theorem mem_stableInsert {α : Type} (le : α → α → Bool) (x a : α) (l : List α) :
    a ∈ stableInsert le x l ↔ a = x ∨ a ∈ l := by
  induction l with
  | nil => simp [stableInsert]
  | cons y ys ih =>
      by_cases h : le x y
      · simp only [stableInsert, if_pos h, List.mem_cons]
      · simp only [stableInsert, if_neg h, List.mem_cons, ih]
        tauto

theorem mem_insertionSortJS {α : Type} (le : α → α → Bool) (a : α) (l : List α) :
    a ∈ insertionSortJS le l ↔ a ∈ l := by
  induction l with
  | nil => simp [insertionSortJS]
  | cons x xs ih =>
      simp only [insertionSortJS, mem_stableInsert, ih, List.mem_cons]

theorem length_stableInsert {α : Type} (le : α → α → Bool) (x : α) (l : List α) :
    (stableInsert le x l).length = l.length + 1 := by
  induction l with
  | nil => rfl
  | cons y ys ih =>
      by_cases h : le x y <;> simp [stableInsert, h, ih]

theorem length_insertionSortJS {α : Type} (le : α → α → Bool) (l : List α) :
    (insertionSortJS le l).length = l.length := by
  induction l with
  | nil => rfl
  | cons x xs ih => simp [insertionSortJS, length_stableInsert, ih]

theorem pairwise_stableInsert {α : Type} (le : α → α → Bool)
    (total : ∀ a b, le a b || le b a)
    (htrans : ∀ a b c, le a b = true → le b c = true → le a c = true)
    (x : α) (l : List α) (h : l.Pairwise (fun a b => le a b = true)) :
    (stableInsert le x l).Pairwise (fun a b => le a b = true) := by
  induction l with
  | nil => simp [stableInsert]
  | cons y ys ih =>
      rcases List.pairwise_cons.mp h with ⟨hy, hys⟩
      by_cases hxy : le x y
      · rw [stableInsert, if_pos hxy]
        refine List.pairwise_cons.mpr ⟨?_, h⟩
        intro z hz
        rcases List.mem_cons.mp hz with rfl | hz
        · exact hxy
        · exact htrans x y z hxy (hy z hz)
      · rw [stableInsert, if_neg hxy]
        refine List.pairwise_cons.mpr ⟨?_, ih hys⟩
        intro z hz
        rcases (mem_stableInsert le x z ys).mp hz with rfl | hz
        · have := total z y
          simp [hxy] at this
          exact this
        · exact hy z hz

theorem pairwise_insertionSortJS {α : Type} (le : α → α → Bool)
    (total : ∀ a b, le a b || le b a)
    (htrans : ∀ a b c, le a b = true → le b c = true → le a c = true)
    (l : List α) :
    (insertionSortJS le l).Pairwise (fun a b => le a b = true) := by
  induction l with
  | nil => simp [insertionSortJS]
  | cons x xs ih => exact pairwise_stableInsert le total htrans x _ ih

theorem mem_jsSlice {α : Type} {a : α} {l : List α} {s t : Int}
    (h : a ∈ jsSlice l s t) : a ∈ l := by
  unfold jsSlice at h
  exact List.drop_subset _ _ (List.take_subset _ _ h)

theorem mem_dedupAux {α : Type} [DecidableEq α] (seen : List α) (l : List α) (a : α) :
    a ∈ dedupAux seen l ↔ a ∈ l ∧ a ∉ seen := by
  induction l generalizing seen with
  | nil => simp [dedupAux]
  | cons x xs ih =>
      by_cases hx : x ∈ seen
      · simp only [dedupAux, if_pos hx, ih, List.mem_cons]
        constructor
        · rintro ⟨h1, h2⟩
          exact ⟨Or.inr h1, h2⟩
        · rintro ⟨(rfl | h1), h2⟩
          · exact absurd hx h2
          · exact ⟨h1, h2⟩
      · simp only [dedupAux, if_neg hx, List.mem_cons, ih]
        constructor
        · rintro (rfl | ⟨h1, h2⟩)
          · exact ⟨Or.inl rfl, hx⟩
          · exact ⟨Or.inr h1, fun hs => h2 (Or.inr hs)⟩
        · rintro ⟨(rfl | h1), h2⟩
          · exact Or.inl rfl
          · by_cases hax : a = x
            · exact Or.inl hax
            · exact Or.inr ⟨h1, fun h => h.elim hax h2⟩

theorem mem_dedupKeepFirst {α : Type} [DecidableEq α] (l : List α) (a : α) :
    a ∈ dedupKeepFirst l ↔ a ∈ l := by
  simp [dedupKeepFirst, mem_dedupAux]

theorem dedupAux_append_mem {α : Type} [DecidableEq α] (x : α) :
    ∀ (seen xs : List α), x ∈ xs ∨ x ∈ seen →
      dedupAux seen (xs ++ [x]) = dedupAux seen xs := by
  intro seen xs
  induction xs generalizing seen with
  | nil =>
      intro h
      rcases h with h | h
      · exact absurd h (List.not_mem_nil x)
      · simp [dedupAux, h]
  | cons y ys ih =>
      intro h
      by_cases hy : y ∈ seen
      · simp only [List.cons_append, dedupAux, if_pos hy]
        apply ih
        rcases h with h | h
        · rcases List.mem_cons.mp h with rfl | h
          · exact Or.inr hy
          · exact Or.inl h
        · exact Or.inr h
      · simp only [List.cons_append, dedupAux, if_neg hy, List.append_eq]
        rw [ih (y :: seen)]
        rcases h with h | h
        · rcases List.mem_cons.mp h with rfl | h
          · exact Or.inr (List.mem_cons_self x seen)
          · exact Or.inl h
        · exact Or.inr (List.mem_cons.mpr (Or.inr h))

theorem dedupAux_append_not_mem {α : Type} [DecidableEq α] (x : α) :
    ∀ (seen xs : List α), x ∉ xs → x ∉ seen →
      dedupAux seen (xs ++ [x]) = dedupAux seen xs ++ [x] := by
  intro seen xs
  induction xs generalizing seen with
  | nil =>
      intro _ hs
      simp [dedupAux, hs]
  | cons y ys ih =>
      intro hxs hs
      have hxy : x ≠ y := fun h => hxs (h ▸ List.mem_cons_self y ys)
      have hxys : x ∉ ys := fun h => hxs (List.mem_cons.mpr (Or.inr h))
      by_cases hy : y ∈ seen
      · simp only [List.cons_append, dedupAux, if_pos hy]
        exact ih seen hxys hs
      · simp only [List.cons_append, dedupAux, if_neg hy, List.append_eq]
        rw [ih (y :: seen) hxys (fun h => (List.mem_cons.mp h).elim hxy hs)]

theorem map_filterMap_recover {γ δ : Type} (f : γ → Option δ) (g : δ → γ) :
    ∀ L : List γ, (∀ i ∈ L, ∃ v, f i = some v ∧ g v = i) → (L.filterMap f).map g = L := by
  intro L
  induction L with
  | nil => intro _; rfl
  | cons i L ih =>
      intro h
      rcases h i (List.mem_cons_self i L) with ⟨v, hv, hgv⟩
      rw [List.filterMap_cons, hv]
      simp only [List.map_cons, hgv]
      rw [ih (fun j hj => h j (List.mem_cons.mpr (Or.inr hj)))]

theorem filterMap_map_pointwise {γ δ : Type} (f f' : γ → Option δ) (g : δ → δ)
    (L : List γ) (h : ∀ i ∈ L, f' i = (f i).map g) :
    L.filterMap f' = (L.filterMap f).map g := by
  induction L with
  | nil => rfl
  | cons i L ih =>
      have hi := h i (List.mem_cons_self i L)
      have ihL := ih (fun j hj => h j (List.mem_cons.mpr (Or.inr hj)))
      cases hf : f i with
      | none =>
          rw [List.filterMap_cons, List.filterMap_cons, hi, hf]
          simpa using ihL
      | some v =>
          rw [List.filterMap_cons, List.filterMap_cons, hi, hf]
          simp [ihL]

theorem filterMap_pointwise_eq {γ δ : Type} (f f' : γ → Option δ)
    (L : List γ) (h : ∀ i ∈ L, f' i = f i) :
    L.filterMap f' = L.filterMap f := by
  induction L with
  | nil => rfl
  | cons i L ih =>
      rw [List.filterMap_cons, List.filterMap_cons, h i (List.mem_cons_self i L),
        ih (fun j hj => h j (List.mem_cons.mpr (Or.inr hj)))]

theorem filter_id_eq_nil (all : List MatchRec) (i : Nat)
    (h : i ∉ all.map (fun r => r.item.id)) :
    all.filter (fun r => r.item.id == i) = [] := by
  apply List.filter_eq_nil_iff.mpr
  intro r hr
  simp only [beq_iff_eq]
  intro he
  exact h (List.mem_map.mpr ⟨r, hr, he⟩)

theorem ids_mergeSpec (all : List MatchRec) :
    (mergeSpec all).map (fun r => r.item.id) =
      dedupKeepFirst (all.map (fun r => r.item.id)) := by
  apply map_filterMap_recover
  intro i hi
  have hi' : i ∈ all.map (fun r => r.item.id) := (mem_dedupKeepFirst _ _).mp hi
  rcases List.mem_map.mp hi' with ⟨r, hr, hid⟩
  cases hfil : all.filter (fun e => e.item.id == i) with
  | nil =>
      exfalso
      have : r ∈ all.filter (fun e => e.item.id == i) :=
        List.mem_filter.mpr ⟨hr, by simp [hid]⟩
      rw [hfil] at this
      exact List.not_mem_nil r this
  | cons r0 rest =>
      refine ⟨_, rfl, ?_⟩
      have : r0 ∈ all.filter (fun e => e.item.id == i) := by
        rw [hfil]; exact List.mem_cons_self r0 rest
      have := (List.mem_filter.mp this).2
      simpa using this

theorem mem_ids_mergeSpec (all : List MatchRec) (i : Nat) :
    (i ∈ (mergeSpec all).map (fun r => r.item.id)) ↔
      i ∈ all.map (fun r => r.item.id) := by
  rw [ids_mergeSpec, mem_dedupKeepFirst]

theorem head_filter_id {all : List MatchRec} {i : Nat} {r0 : MatchRec} {rest : List MatchRec}
    (h : all.filter (fun e => e.item.id == i) = r0 :: rest) : r0.item.id = i := by
  have hmem : r0 ∈ all.filter (fun e => e.item.id == i) := by
    rw [h]; exact List.mem_cons_self r0 rest
  simpa using (List.mem_filter.mp hmem).2

theorem filter_id_ne_nil {all : List MatchRec} {i : Nat}
    (h : i ∈ all.map (fun e => e.item.id)) :
    all.filter (fun e => e.item.id == i) ≠ [] := by
  rcases List.mem_map.mp h with ⟨v, hv, hvid⟩
  intro hnil
  have : v ∈ all.filter (fun e => e.item.id == i) :=
    List.mem_filter.mpr ⟨hv, by simp [hvid]⟩
  rw [hnil] at this
  exact List.not_mem_nil v this

theorem mergeSpec_append (all : List MatchRec) (r : MatchRec) :
    mergeSpec (all ++ [r]) = insertCombined (mergeSpec all) r := by
  have hids : (all ++ [r]).map (fun e => e.item.id)
      = all.map (fun e => e.item.id) ++ [r.item.id] := by simp
  by_cases hmem : r.item.id ∈ all.map (fun e => e.item.id)
  · -- the id is already present: the stored record only gets its score raised
    have hdedup : dedupKeepFirst ((all ++ [r]).map (fun e => e.item.id))
        = dedupKeepFirst (all.map (fun e => e.item.id)) := by
      rw [hids]
      exact dedupAux_append_mem _ _ _ (Or.inl hmem)
    have hany : (mergeSpec all).any (fun e => e.item.id == r.item.id) = true := by
      rw [List.any_eq_true]
      rcases List.mem_map.mp ((mem_ids_mergeSpec all r.item.id).mpr hmem) with ⟨v, hv, hvid⟩
      exact ⟨v, hv, by simp [hvid]⟩
    simp only [insertCombined, if_pos hany]
    unfold mergeSpec
    rw [hdedup]
    apply filterMap_map_pointwise
    intro i hi
    by_cases hir : r.item.id = i
    · subst hir
      cases hfil : all.filter (fun e => e.item.id == r.item.id) with
      | nil => exact absurd hfil (filter_id_ne_nil hmem)
      | cons r0 rest =>
          have h1 : (all ++ [r]).filter (fun e => e.item.id == r.item.id)
              = r0 :: (rest ++ [r]) := by
            rw [List.filter_append, hfil]
            simp
          have hr0 : r0.item.id = r.item.id := head_filter_id hfil
          rw [h1]
          simp only [Option.map_some]
          congr 1
          simp [hr0, List.foldl_append]
    · have h1 : (all ++ [r]).filter (fun e => e.item.id == i)
          = all.filter (fun e => e.item.id == i) := by
        rw [List.filter_append]
        simp [hir]
      rw [h1]
      cases hfil : all.filter (fun e => e.item.id == i) with
      | nil => rfl
      | cons r0 rest =>
          have hr0 : r0.item.id = i := head_filter_id hfil
          simp only [Option.map_some]
          congr 1
          have hcond : (r0.item.id == r.item.id) = false := by
            rw [hr0]
            simp only [beq_eq_false_iff_ne, ne_eq]
            exact fun h => hir h.symm
          simp [hcond]
  · -- a fresh id: the record is appended unchanged
    have hdedup : dedupKeepFirst ((all ++ [r]).map (fun e => e.item.id))
        = dedupKeepFirst (all.map (fun e => e.item.id)) ++ [r.item.id] := by
      rw [hids]
      exact dedupAux_append_not_mem _ _ _ hmem (List.not_mem_nil _)
    have hany : (mergeSpec all).any (fun e => e.item.id == r.item.id) = false := by
      rw [List.any_eq_false]
      intro e he
      simp only [beq_iff_eq]
      intro hid
      exact hmem ((mem_ids_mergeSpec all r.item.id).mp (List.mem_map.mpr ⟨e, he, hid⟩))
    simp only [insertCombined, hany, Bool.false_eq_true, if_false]
    unfold mergeSpec
    rw [hdedup, List.filterMap_append]
    have hnil : all.filter (fun e => e.item.id == r.item.id) = [] :=
      filter_id_eq_nil all r.item.id hmem
    have h2 : (all ++ [r]).filter (fun e => e.item.id == r.item.id) = [r] := by
      rw [List.filter_append, hnil]
      simp
    congr 1
    · apply filterMap_pointwise_eq
      intro i hi
      have hi' := (mem_dedupKeepFirst _ _).mp hi
      have hir : r.item.id ≠ i := fun h => hmem (h ▸ hi')
      have h1 : (all ++ [r]).filter (fun e => e.item.id == i)
          = all.filter (fun e => e.item.id == i) := by
        rw [List.filter_append]
        simp [hir]
      rw [h1]
    · rw [List.filterMap_cons, h2]
      rfl

theorem foldl_insertCombined_eq (all : List MatchRec) :
    all.foldl insertCombined [] = mergeSpec all := by
  induction all using List.reverseRecOn with
  | nil => rfl
  | append_singleton xs x ih =>
      rw [List.foldl_append, List.foldl_cons, List.foldl_nil, ih, mergeSpec_append]

theorem combineSearchResults_eq_mergeSpec (resultArrays : List (List MatchRec)) :
    combineSearchResults resultArrays = mergeSpec resultArrays.flatten :=
  foldl_insertCombined_eq resultArrays.flatten

/-! ## Score-bound lemmas -/

theorem normScore_nonneg (query fieldVal : String) : 0 ≤ normScore query fieldVal := by
  unfold normScore
  apply div_nonneg
  · exact Nat.cast_nonneg _
  · exact_mod_cast Nat.zero_le _

theorem fuseScore_nonneg (query : String) (p : Product) : 0 ≤ fuseScore query p := by
  unfold fuseScore
  generalize fuseFields p = fields
  have key : ∀ (l : List String) (init : ℚ), 0 ≤ init →
      0 ≤ l.foldl (fun acc f => min acc (normScore query f)) init := by
    intro l
    induction l with
    | nil => intro init h; exact h
    | cons f fs ih =>
        intro init h
        exact ih _ (le_min h (normScore_nonneg query f))
  exact key fields 1 zero_le_one

theorem fuzzySearch_shape {products : List Product} {query : String} {r : MatchRec}
    (hr : r ∈ fuzzySearch products query) :
    r.score = fuseScore query r.item ∧ 0 ≤ r.score ∧ r.score ≤ 2/5 ∧
      r.algorithm = "fuzzy" := by
  unfold fuzzySearch at hr
  rcases List.mem_filterMap.mp hr with ⟨p, _, hp⟩
  by_cases hc : query.length ≥ 2 ∧ fuseScore query p ≤ 2/5
  · rw [if_pos hc] at hp
    cases hp
    exact ⟨rfl, fuseScore_nonneg query p, hc.2, rfl⟩
  · rw [if_neg hc] at hp
    cases hp

theorem fuzzySearch_bounds {products : List Product} {query : String} {r : MatchRec}
    (hr : r ∈ fuzzySearch products query) : 0 ≤ r.score ∧ r.score ≤ 1 := by
  rcases fuzzySearch_shape hr with ⟨_, h0, h25, _⟩
  exact ⟨h0, h25.trans (by norm_num)⟩

theorem findExactMatches_bounds {products : List Product} {query : String} {r : MatchRec}
    (hr : r ∈ findExactMatches products query) : 0 ≤ r.score ∧ r.score ≤ 1 := by
  unfold findExactMatches at hr
  rcases List.mem_filterMap.mp hr with ⟨p, _, hp⟩
  simp only at hp
  set s : ℚ :=
    (if p.name != "" && strContains (lowerStr p.name) (lowerStr query) then (9:ℚ)/10 else 0) +
    (if p.model != "" && strContains (lowerStr p.model) (lowerStr query) then (8:ℚ)/10 else 0) +
    (if (match p.brand with
          | some b => b.name != "" && strContains (lowerStr b.name) (lowerStr query)
          | none => false) then (7:ℚ)/10 else 0) with hs
  by_cases hpos : s > 0
  · rw [if_pos hpos] at hp
    cases hp
    exact ⟨le_min hpos.le zero_le_one, min_le_right _ _⟩
  · rw [if_neg hpos] at hp
    cases hp

theorem findPartialMatches_bounds {products : List Product} {query : String} {r : MatchRec}
    (hr : r ∈ findPartialMatches products query) : 0 ≤ r.score ∧ r.score ≤ 1 := by
  unfold findPartialMatches at hr
  rcases List.mem_filterMap.mp hr with ⟨p, _, hp⟩
  simp only at hp
  by_cases hpos :
      ((splitWs (lowerStr query)).foldl (partialWordStep p) (0, [])).1 > 0
  · rw [if_pos hpos] at hp
    cases hp
    exact ⟨le_min hpos.le zero_le_one, min_le_right _ _⟩
  · rw [if_neg hpos] at hp
    cases hp

theorem insertCombined_bounds {acc : List MatchRec} {r : MatchRec}
    (hacc : ∀ e ∈ acc, 0 ≤ e.score ∧ e.score ≤ 1)
    (hr : 0 ≤ r.score ∧ r.score ≤ 1) :
    ∀ e ∈ insertCombined acc r, 0 ≤ e.score ∧ e.score ≤ 1 := by
  intro e he
  unfold insertCombined at he
  by_cases hany : acc.any (fun x => x.item.id == r.item.id)
  · rw [if_pos hany] at he
    rcases List.mem_map.mp he with ⟨x, hx, hxe⟩
    by_cases hid : x.item.id == r.item.id
    · rw [if_pos hid] at hxe
      subst hxe
      refine ⟨le_trans (hacc x hx).1 (le_max_left _ _), max_le (hacc x hx).2 hr.2⟩
    · rw [if_neg hid] at hxe
      subst hxe
      exact hacc x hx
  · rw [if_neg hany] at he
    rcases List.mem_append.mp he with h | h
    · exact hacc e h
    · rcases List.mem_singleton.mp h with rfl
      exact hr

theorem foldl_insertCombined_bounds :
    ∀ (all : List MatchRec) (acc : List MatchRec),
      (∀ e ∈ acc, 0 ≤ e.score ∧ e.score ≤ 1) →
      (∀ e ∈ all, 0 ≤ e.score ∧ e.score ≤ 1) →
      ∀ e ∈ all.foldl insertCombined acc, 0 ≤ e.score ∧ e.score ≤ 1 := by
  intro all
  induction all with
  | nil => intro acc hacc _ e he; exact hacc e he
  | cons x xs ih =>
      intro acc hacc hall e he
      rw [List.foldl_cons] at he
      exact ih _ (insertCombined_bounds hacc (hall x (List.mem_cons_self x xs)))
        (fun y hy => hall y (List.mem_cons.mpr (Or.inr hy))) e he

theorem performTextSearch_bounds {products : List Product} {query : String} {r : MatchRec}
    (hr : r ∈ performTextSearch products query) : 0 ≤ r.score ∧ r.score ≤ 1 := by
  unfold performTextSearch combineSearchResults at hr
  refine foldl_insertCombined_bounds _ [] (by intro e he; cases he) ?_ r hr
  intro e he
  rcases List.mem_flatten.mp he with ⟨l, hl, hel⟩
  simp only [List.mem_cons, List.not_mem_nil, or_false] at hl
  rcases hl with rfl | rfl | rfl
  · exact fuzzySearch_bounds hel
  · exact findExactMatches_bounds hel
  · exact findPartialMatches_bounds hel

theorem boostScore_bounds (p : Product) (s : ℚ) (hs : 0 ≤ s) :
    0 ≤ boostScore p s ∧ boostScore p s ≤ 1 := by
  unfold boostScore
  split_ifs <;>
    exact ⟨le_min (by positivity) (by norm_num), min_le_right _ _⟩

theorem applyAdvancedScoring_bounds {results : List MatchRec} {r : MatchRec}
    (hin : ∀ e ∈ results, 0 ≤ e.score)
    (hr : r ∈ applyAdvancedScoring results) : 0 ≤ r.score ∧ r.score ≤ 1 := by
  unfold applyAdvancedScoring at hr
  rcases List.mem_map.mp hr with ⟨x, hx, hxe⟩
  subst hxe
  exact boostScore_bounds x.item x.score (hin x hx)

/-! ## Cache and popularity-map lemmas -/

theorem lookupKey_mapSet_self {κ β : Type} [DecidableEq κ]
    (m : List (κ × β)) (k : κ) (v : β) :
    lookupKey (mapSet m k v) k = some v := by
  induction m with
  | nil => simp [mapSet, lookupKey]
  | cons kv rest ih =>
      by_cases h : kv.1 = k
      · rw [mapSet, if_pos h, lookupKey, if_pos rfl]
      · rw [mapSet, if_neg h, lookupKey, if_neg h, ih]

theorem countOf_bumpCount (m : List (String × Nat)) (k : String) :
    countOf (bumpCount m k) k = countOf m k + 1 := by
  induction m with
  | nil => simp [bumpCount, countOf, lookupKey]
  | cons e rest ih =>
      by_cases he : e.1 = k
      · have hany : (e :: rest).any (fun x => x.1 == k) = true := by
          simp [List.any_cons, he]
        rw [bumpCount, if_pos hany]
        simp [countOf, lookupKey, he]
      · have hskip : ∀ tail : List (String × Nat),
            countOf (e :: tail) k = countOf tail k := by
          intro tail
          rw [countOf, lookupKey, if_neg he, countOf]
        by_cases hrest : rest.any (fun x => x.1 == k) = true
        · have hany : (e :: rest).any (fun x => x.1 == k) = true := by
            simp [List.any_cons, hrest]
          rw [bumpCount, if_pos hany]
          simp only [List.map_cons]
          have hee : (if e.1 == k then (e.1, e.2 + 1) else e) = e := by
            simp [he]
          rw [hee]
          have hmap : rest.map (fun x => if x.1 == k then (x.1, x.2 + 1) else x)
              = bumpCount rest k := by
            rw [bumpCount, if_pos hrest]
          rw [hmap, hskip, hskip]
          exact ih
        · have hany : ¬ ((e :: rest).any (fun x => x.1 == k) = true) := by
            simp only [List.any_cons, Bool.or_eq_true, not_or]
            exact ⟨by simp [he], by simpa using hrest⟩
          rw [bumpCount, if_neg hany]
          have hcons : (e :: rest) ++ [(k, 1)] = e :: (rest ++ [(k, 1)]) := rfl
          have hrb : rest ++ [(k, 1)] = bumpCount rest k := by
            rw [bumpCount, if_neg (by simpa using hrest)]
          rw [hcons, hrb, hskip, hskip]
          exact ih

/-! ## Pagination window arithmetic -/

theorem jsSlice_length_window {α : Type} (l : List α) (off lim : Int)
    (hoff : 0 ≤ off) (hlim : 0 ≤ lim) :
    ((jsSlice l off (off + lim)).length : Int) =
      if (l.length : Int) ≤ off then 0 else min lim ((l.length : Int) - off) := by
  have h1 : ¬ off < 0 := not_lt.mpr hoff
  have h2 : ¬ off + lim < 0 := not_lt.mpr (by omega)
  simp only [jsSlice, if_neg h1, if_neg h2, List.length_take, List.length_drop]
  rcases le_or_lt (l.length : Int) off with hc | hc
  · rw [if_pos hc]
    omega
  · rw [if_neg (not_le.mpr hc)]
    omega

/-! ## Comparator lemmas for the Sort Stage -/

theorem sortCmp_relevance (a b : MatchRec) : sortCmp "relevance" a b = b.score - a.score := rfl

theorem sortCmp_price (a b : MatchRec) : sortCmp "price" a b = a.item.price - b.item.price := rfl

theorem sortCmp_name (a b : MatchRec) :
    sortCmp "name" a b = localeCmp a.item.name b.item.name := rfl

theorem sortCmp_rating (a b : MatchRec) :
    sortCmp "rating" a b =
      b.item.average_rating.getD 0 - a.item.average_rating.getD 0 := rfl

theorem localeCmp_le_zero (a b : String) : localeCmp a b ≤ 0 ↔ a ≤ b := by
  unfold localeCmp
  rcases lt_trichotomy a b with h | h | h
  · rw [if_pos h]
    simp [le_of_lt h]
  · rw [if_neg (by simp [h]), if_pos h]
    simp [le_of_eq h]
  · rw [if_neg (asymm h), if_neg (ne_of_gt h)]
    simp [not_le.mpr h]

/-! ## Claim theorems -/

/-- **C9**: for every candidate list and filter set, the Filter Stage
returns exactly the subset of candidates satisfying all of: status is
active; brand matches when a brand filter is specified; category matches
when a category filter is specified; price within the inclusive bounds;
and positive stock when in-stock-only is requested.  The function is
total: an empty subset is an ordinary return value, never an error. -/
theorem c9_filter_stage (products : List Product) (f : BasicFilters) (p : Product) :
    p ∈ applyBasicFilters products f ↔ p ∈ products ∧ filterSpec f p := by
  unfold applyBasicFilters filterSpec
  rw [List.mem_filter]
  apply and_congr Iff.rfl
  cases hb : p.brand <;> cases hc : p.category <;> cases hmp : f.maxPrice <;>
      cases hin : f.inStock <;>
    · simp only [Bool.and_eq_true, Bool.or_eq_true, beq_iff_eq, decide_eq_true_eq,
        Bool.not_eq_true', Option.some.injEq, ne_eq, exists_eq_left', forall_eq',
        reduceCtorEq, false_and, exists_false, gt_iff_lt]
      simp
      tauto

/-- **C10**: `performTextSearch` merges the matcher outputs in the fixed
order fuzzy, exact, partial, and the merged record for each product id is
the record of the first matcher that produced it with only its score
replaced by the maximum of all candidate scores — the match-explanation
list and every other field of that first record are left unchanged, as
spelled out by `mergeSpec`. -/
theorem c10_merge_first_matcher (products : List Product) (query : String) :
    performTextSearch products query =
      mergeSpec
        (fuzzySearch (products.map (fun p => { p with keywords := generateKeywords p })) query ++
          (findExactMatches (products.map (fun p => { p with keywords := generateKeywords p }))
              query ++
            findPartialMatches (products.map (fun p => { p with keywords := generateKeywords p }))
              query)) := by
  unfold performTextSearch
  rw [combineSearchResults_eq_mergeSpec]
  simp [List.flatten]

/-- **C5**: every item of every search response carries a final score in
the closed interval `[0, 1]`, for all candidate lists, parameters and
matcher outcomes (the boosts are capped at 1 and all matcher scores are
non-negative). -/
theorem c5_score_bounds (popular : List (String × Nat)) (products : List Product)
    (p : SearchParams) (r : ResultItem)
    (hr : r ∈ (search popular products p).1.results) : 0 ≤ r.score ∧ r.score ≤ 1 := by
  simp only [search] at hr
  rcases List.mem_map.mp hr with ⟨m, hm, rfl⟩
  have hm2 := mem_jsSlice hm
  simp only [sortResults] at hm2
  have hm3 := (mem_insertionSortJS _ _ _).mp hm2
  have hbase : ∀ e ∈ (if (trimStr (p.query.getD "")).length > 0 then
      performTextSearch
        (applyBasicFilters products
          { brand := p.brand.getD "", category := p.category.getD "",
            minPrice := p.minPrice.getD 0, maxPrice := p.maxPrice,
            inStock := p.inStock.getD false }) (trimStr (p.query.getD ""))
    else
      (applyBasicFilters products
        { brand := p.brand.getD "", category := p.category.getD "",
          minPrice := p.minPrice.getD 0, maxPrice := p.maxPrice,
          inStock := p.inStock.getD false }).map (fun q =>
        { item := q, score := 1, matchesList := [], algorithm := "" })), 0 ≤ e.score := by
    intro e he
    by_cases hq : (trimStr (p.query.getD "")).length > 0
    · rw [if_pos hq] at he
      exact (performTextSearch_bounds he).1
    · rw [if_neg hq] at he
      rcases List.mem_map.mp he with ⟨x, _, rfl⟩
      exact zero_le_one
  exact applyAdvancedScoring_bounds hbase hm3

/-- **C5** witness: `c5_score_bounds` at the concrete no-query search over
`threeProds`, whose first returned item carries score `1/2` (the ×0.5
zero-stock boost applied to the full-match score 1). -/
theorem c5_score_bounds_witness :
    0 ≤ ({ item := { id := 1 }, score := 1/2, matchesList := [] } : ResultItem).score ∧
    ({ item := { id := 1 }, score := 1/2, matchesList := [] } : ResultItem).score ≤ 1 :=
  c5_score_bounds [] threeProds {} _ (by decide)

/-- **C1** (amended): every record produced by the fuzzy matcher carries a
score in `[0, 1]`, but the score is the library's raw normalized distance
(`0` = perfect match) passed through unchanged by `fuzzySearch` — lower
edit distance therefore gives a *lower* score, not a higher one: the score
is never inverted. -/
theorem c1_fuzzy_amended (products : List Product) (query : String) (r : MatchRec)
    (hr : r ∈ fuzzySearch products query) :
    (0 ≤ r.score ∧ r.score ≤ 1) ∧ r.score = fuseScore query r.item ∧
      r.algorithm = "fuzzy" := by
  rcases fuzzySearch_shape hr with ⟨heq, h0, h25, halg⟩
  exact ⟨⟨h0, h25.trans (by norm_num)⟩, heq, halg⟩

/-- **C1** witness: `c1_fuzzy_amended` evaluated on the concrete record the
fuzzy matcher emits for query `"iphone"` over `[fuzzyExactProd]`. -/
theorem c1_fuzzy_witness :
    (0 ≤ fuzzyExactRec.score ∧ fuzzyExactRec.score ≤ 1) ∧
    fuzzyExactRec.score = fuseScore "iphone" fuzzyExactRec.item ∧
    fuzzyExactRec.algorithm = "fuzzy" :=
  c1_fuzzy_amended [fuzzyExactProd] "iphone" fuzzyExactRec (by decide)

/-- **C1** counterexample: on query `"iphone"`, the record for the product
whose name is at edit distance 0 scores `0`, while the record for the
product at edit distance 1 scores `1/6`: the lower edit distance yields a
strictly *lower* score, refuting the claim that lower edit distance gives
a strictly higher (inverted) score. -/
theorem c1_fuzzy_cex :
    (fuzzySearch [fuzzyExactProd, fuzzyTypoProd] "iphone").map
        (fun r => (r.item.id, r.score)) = [(1, 0), (2, 1/6)] ∧
    lev (lowerStr "iphone").data (lowerStr fuzzyExactProd.name).data <
      lev (lowerStr "iphone").data (lowerStr fuzzyTypoProd.name).data ∧
    ¬ ((0 : ℚ) > 1/6) := by
  refine ⟨by decide, by decide, by norm_num⟩

/-- **C4** (amended): absent limit and offset are defaulted (to `50` and
`0`); values the caller does supply are used by the engine as they are,
with no clamping into `[1,100]` or `[0,∞)`; out-of-range values are
instead rejected with a 400 validation error by the API middleware
(`validateProductSearch`), whose limit rule accepts exactly the absent
value or an integer in `[1,100]` and whose offset rule accepts exactly
the absent value or a non-negative integer. -/
theorem c4_normalization_amended :
    (∀ (popular : List (String × Nat)) (products : List Product) (p : SearchParams),
      p.limit = none → (search popular products p).1.metadata.limit = 50) ∧
    (∀ (popular : List (String × Nat)) (products : List Product) (p : SearchParams),
      p.offset = none → (search popular products p).1.metadata.offset = 0) ∧
    (∀ v : Int, validLimitParam (some v) = true ↔ 1 ≤ v ∧ v ≤ 100) ∧
    validLimitParam none = true ∧
    (∀ v : Int, validOffsetParam (some v) = true ↔ 0 ≤ v) ∧
    validOffsetParam none = true := by
  refine ⟨?_, ?_, ?_, rfl, ?_, rfl⟩
  · intro popular products p h
    show p.limit.getD 50 = 50
    rw [h]
    rfl
  · intro popular products p h
    show p.offset.getD 0 = 0
    rw [h]
    rfl
  · intro v
    simp [validLimitParam]
  · intro v
    simp [validOffsetParam]

/-- **C4** witness: `c4_normalization_amended` evaluated on a request with
absent limit and offset, and on the concrete validation inputs `7`. -/
theorem c4_normalization_witness :
    (search [] threeProds ({} : SearchParams)).1.metadata.limit = 50 ∧
    (search [] threeProds ({} : SearchParams)).1.metadata.offset = 0 ∧
    (validLimitParam (some 7) = true ↔ 1 ≤ (7 : Int) ∧ (7 : Int) ≤ 100) ∧
    (validOffsetParam (some 7) = true ↔ 0 ≤ (7 : Int)) :=
  ⟨c4_normalization_amended.1 [] threeProds {} rfl,
   c4_normalization_amended.2.1 [] threeProds {} rfl,
   c4_normalization_amended.2.2.1 7,
   c4_normalization_amended.2.2.2.2.1 7⟩

/-- **C4** counterexample: a request carrying `limit = 0` and
`offset = -5` reaches the engine unchanged — the echoed window is the
out-of-range pair `(0, -5)` and the slice is empty although three active
candidates exist, refuting the claim that the engine normalizes limit
into `[1,100]` and offset into `[0,∞)` before the window is taken. -/
theorem c4_normalization_cex :
    (search [] threeProds badRangeParams).1.metadata.limit = 0 ∧
    (search [] threeProds badRangeParams).1.metadata.offset = -5 ∧
    (search [] threeProds badRangeParams).1.metadata.total = 3 ∧
    (search [] threeProds badRangeParams).1.results = [] ∧
    ¬ ((1 : Int) ≤ 0) ∧ ¬ ((0 : Int) ≤ -5) := by
  refine ⟨rfl, rfl, by decide, by decide, by decide, by decide⟩

/-- **C6** (amended): on the engine path, `hasNext` and `hasPrev` are by
construction `offset + limit < total` and `offset > 0`, and for
non-negative offset and limit the returned slice length is
`min limit (total − offset)`, or `0` when `offset ≥ total`.  On the
service's empty-candidate short-circuit, however, `hasNext` and `hasPrev`
are both hard-coded `false` — `hasPrev` is `false` even when the request's
offset is positive — and the results are empty. -/
theorem c6_pagination_amended :
    (∀ (popular : List (String × Nat)) (products : List Product) (p : SearchParams),
      (search popular products p).1.metadata.hasNext =
        decide ((search popular products p).1.metadata.offset +
          (search popular products p).1.metadata.limit <
            ((search popular products p).1.metadata.total : Int)) ∧
      (search popular products p).1.metadata.hasPrev =
        decide ((search popular products p).1.metadata.offset > 0) ∧
      (0 ≤ p.offset.getD 0 → 0 ≤ p.limit.getD 50 →
        (((search popular products p).1.results.length : Int) =
          if ((search popular products p).1.metadata.total : Int) ≤ p.offset.getD 0 then 0
          else min (p.limit.getD 50)
            (((search popular products p).1.metadata.total : Int) - p.offset.getD 0)))) ∧
    (∀ (st : ServiceState) (now : Int) (p : SearchParams),
      (getFromCache st.searchCache now (generateCacheKey p)).1 = none →
      (searchProducts st now [] p).1.metadata.hasNext = false ∧
      (searchProducts st now [] p).1.metadata.hasPrev = false ∧
      (searchProducts st now [] p).1.results = []) := by
  constructor
  · intro popular products p
    refine ⟨rfl, rfl, ?_⟩
    intro hoff hlim
    have key : ∀ (S : List MatchRec) (off lim : Int), 0 ≤ off → 0 ≤ lim →
        (((jsSlice S off (off + lim)).map (fun r : MatchRec =>
            ({ item := r.item, score := r.score,
               matchesList := r.matchesList } : ResultItem))).length : Int) =
          if (S.length : Int) ≤ off then 0 else min lim ((S.length : Int) - off) := by
      intro S off lim h1 h2
      rw [List.length_map]
      exact jsSlice_length_window S off lim h1 h2
    exact key _ _ _ hoff hlim
  · intro st now p hmiss
    have hpair : getFromCache st.searchCache now (generateCacheKey p)
        = (none, (getFromCache st.searchCache now (generateCacheKey p)).2) :=
      Prod.ext hmiss rfl
    set c2 := (getFromCache st.searchCache now (generateCacheKey p)).2 with hc2
    refine ⟨?_, ?_, ?_⟩ <;> simp [searchProducts, hpair, emptyResult]

/-- **C6** witness: the engine-path slice-length equation of
`c6_pagination_amended` at a concrete three-candidate request with default
window, and the short-circuit behavior on the empty candidate list. -/
theorem c6_pagination_witness :
    (((search [] threeProds ({} : SearchParams)).1.results.length : Int) =
      if ((search [] threeProds ({} : SearchParams)).1.metadata.total : Int) ≤
          (({} : SearchParams).offset.getD 0) then 0
      else min (({} : SearchParams).limit.getD 50)
        (((search [] threeProds ({} : SearchParams)).1.metadata.total : Int) -
          (({} : SearchParams).offset.getD 0))) ∧
    (searchProducts emptyState 0 [] offsetTenParams).1.results = [] :=
  ⟨(c6_pagination_amended.1 [] threeProds {}).2.2 (by decide) (by decide),
   (c6_pagination_amended.2 emptyState 0 offsetTenParams (by decide)).2.2⟩

/-- **C6** counterexample: on the empty-candidate short-circuit with a
request whose offset is `10`, the response reports `hasPrev = false` even
though `offset > 0`, refuting `hasPrev == (offset > 0)` on that path. -/
theorem c6_pagination_cex :
    (searchProducts emptyState 0 [] offsetTenParams).1.metadata.hasPrev = false ∧
    (searchProducts emptyState 0 [] offsetTenParams).1.metadata.offset = 10 ∧
    ((10 : Int) > 0) := by
  refine ⟨by decide, by decide, by decide⟩

/-- **C3** (amended): the popularity counter for the trimmed, lowercased
query is incremented by exactly one on every search call that misses the
result cache and has a non-empty candidate list and a non-empty query
(zero-result matcher outcomes included); a call answered from the cache
leaves the popularity map completely unchanged, as does the
empty-candidate short-circuit, because both return before the engine's
analytics step runs. -/
theorem c3_popularity_amended :
    (∀ (st : ServiceState) (now : Int) (products : List Product) (p : SearchParams)
        (q : String),
      (getFromCache st.searchCache now (generateCacheKey p)).1 = none →
      products ≠ [] → p.query = some q → q ≠ "" →
      countOf (searchProducts st now products p).2.popularSearches (trimStr (lowerStr q))
        = countOf st.popularSearches (trimStr (lowerStr q)) + 1) ∧
    (∀ (st : ServiceState) (now : Int) (products : List Product) (p : SearchParams)
        (c : EnhancedResponse),
      (getFromCache st.searchCache now (generateCacheKey p)).1 = some c →
      (searchProducts st now products p).2.popularSearches = st.popularSearches) := by
  constructor
  · intro st now products p q hmiss hne hq hq'
    have hempty : products.isEmpty = false := by
      cases products with
      | nil => exact absurd rfl hne
      | cons a l => rfl
    have hpair : getFromCache st.searchCache now (generateCacheKey p)
        = (none, (getFromCache st.searchCache now (generateCacheKey p)).2) :=
      Prod.ext hmiss rfl
    set c2 := (getFromCache st.searchCache now (generateCacheKey p)).2 with hc2
    have hpop : (searchProducts st now products p).2.popularSearches
        = logSearchAnalytics st.popularSearches (p.query.getD "") := by
      simp only [searchProducts, hpair, hempty, Bool.false_eq_true, if_false]
      rfl
    rw [hpop, hq]
    simp only [Option.getD_some, logSearchAnalytics]
    rw [if_pos (show (q != "") = true by simp [hq'])]
    exact countOf_bumpCount _ _
  · intro st now products p c hhit
    have hpair : getFromCache st.searchCache now (generateCacheKey p)
        = (some c, (getFromCache st.searchCache now (generateCacheKey p)).2) :=
      Prod.ext hhit rfl
    set c2 := (getFromCache st.searchCache now (generateCacheKey p)).2 with hc2
    simp [searchProducts, hpair]

/-- **C3** witness: `c3_popularity_amended` on a concrete cache-missing
call for query `"pixel"` (counter goes from 0 to 1) and on a concrete
cache-hit call (counter map unchanged). -/
theorem c3_popularity_witness :
    countOf (searchProducts emptyState 0 pixelProds pixelParams).2.popularSearches
        (trimStr (lowerStr "pixel"))
      = countOf emptyState.popularSearches (trimStr (lowerStr "pixel")) + 1 ∧
    (searchProducts pixelCachedState 500 pixelProds pixelParams).2.popularSearches
      = pixelCachedState.popularSearches :=
  ⟨c3_popularity_amended.1 emptyState 0 pixelProds pixelParams "pixel"
      (by decide) (by decide) rfl (by decide),
   c3_popularity_amended.2 pixelCachedState 500 pixelProds pixelParams
      (emptyResult pixelParams) (by decide)⟩

/-- **C3** counterexample: a search call for the non-empty query
`"pixel"` that is answered from the result cache leaves the popularity
counter at `0` instead of incrementing it to `1`: the cache-hit early
return in `searchProducts` never reaches the analytics step. -/
theorem c3_popularity_cex :
    pixelParams.query = some "pixel" ∧
    (searchProducts pixelCachedState 500 pixelProds pixelParams).2.popularSearches = [] ∧
    countOf (searchProducts pixelCachedState 500 pixelProds pixelParams).2.popularSearches
        (trimStr (lowerStr "pixel")) = 0 := by
  refine ⟨rfl, by decide, by decide⟩

/-- **C7**: a lookup strictly after the stored entry's expiry instant
(5 minutes after storage) never returns the stored entry: `getFromCache`
deletes it and reports a miss, the pipeline is recomputed, and the fresh
result is both returned and stored under the key with a new expiry
`now + cacheExpiry`. -/
theorem c7_cache_expiry (st : ServiceState) (now : Int) (products : List Product)
    (p : SearchParams) (e : CacheEntry)
    (hl : lookupKey st.searchCache (generateCacheKey p) = some e)
    (hexp : e.expiry < now) :
    (searchProducts st now products p).1 =
      (if products.isEmpty then emptyResult p
       else enhanceSearchResults (search st.popularSearches products p).1) ∧
    lookupKey (searchProducts st now products p).2.searchCache (generateCacheKey p) =
      some { data := (searchProducts st now products p).1,
             expiry := now + cacheExpiry } := by
  have hpair : getFromCache st.searchCache now (generateCacheKey p)
      = (none, deleteKey st.searchCache (generateCacheKey p)) := by
    simp only [getFromCache, hl]
    rw [if_pos hexp]
  have heq1 : (searchProducts st now products p).1 =
      (if products.isEmpty then emptyResult p
       else enhanceSearchResults (search st.popularSearches products p).1) := by
    by_cases hpe : products.isEmpty <;> simp [searchProducts, hpair, hpe]
  refine ⟨heq1, ?_⟩
  by_cases hpe : products.isEmpty
  · have hcache : (searchProducts st now products p).2.searchCache =
        setCache (deleteKey st.searchCache (generateCacheKey p)) (generateCacheKey p)
          (emptyResult p) now := by
      simp [searchProducts, hpair, hpe]
    rw [hcache, heq1, if_pos hpe, setCache]
    exact lookupKey_mapSet_self _ _ _
  · have hcache : (searchProducts st now products p).2.searchCache =
        setCache (deleteKey st.searchCache (generateCacheKey p)) (generateCacheKey p)
          (enhanceSearchResults (search st.popularSearches products p).1) now := by
      simp [searchProducts, hpair, hpe]
    rw [hcache, heq1, if_neg hpe, setCache]
    exact lookupKey_mapSet_self _ _ _

/-- **C8** (amended): `price` sorts numerically on the price field,
`name` lexicographically, `rating` numerically on `average_rating`
(default 0 when absent, with the comparator's sense reversed so that
`asc` yields descending ratings, like relevance); but the comparator
`switch` has no `stock` or `date` cases, so those keys — like any other
unknown key — fall back to relevance ordering instead of comparing
`stock_quantity` or `created_at`. -/
theorem c8_sort_keys_amended :
    (∀ (rs : List MatchRec) (d : String),
      sortResults rs "stock" d = sortResults rs "relevance" d) ∧
    (∀ (rs : List MatchRec) (d : String),
      sortResults rs "date" d = sortResults rs "relevance" d) ∧
    (∀ (rs : List MatchRec) (d key : String), key ≠ "relevance" → key ≠ "price" →
      key ≠ "name" → key ≠ "rating" →
      sortResults rs key d = sortResults rs "relevance" d) ∧
    (∀ rs : List MatchRec, (sortResults rs "price" "asc").Pairwise
      (fun a b => a.item.price ≤ b.item.price)) ∧
    (∀ rs : List MatchRec, (sortResults rs "name" "asc").Pairwise
      (fun a b => a.item.name ≤ b.item.name)) ∧
    (∀ rs : List MatchRec, (sortResults rs "rating" "asc").Pairwise
      (fun a b => b.item.average_rating.getD 0 ≤ a.item.average_rating.getD 0)) := by
  refine ⟨fun rs d => rfl, fun rs d => rfl, ?_, ?_, ?_, ?_⟩
  · intro rs d key h1 h2 h3 h4
    simp only [sortResults]
    congr 1
    funext a b
    have hcmp : sortCmp key a b = sortCmp "relevance" a b := by
      simp [sortCmp, h1, h2, h3, h4]
    rw [hcmp]
  · intro rs
    have heq : sortResults rs "price" "asc" =
        insertionSortJS (fun a b => decide (sortCmp "price" a b * 1 ≤ 0)) rs := rfl
    rw [heq]
    refine List.Pairwise.imp ?_ (pairwise_insertionSortJS _ ?_ ?_ rs)
    · intro a b hab
      simp only [sortCmp_price, mul_one, decide_eq_true_eq, sub_nonpos] at hab
      exact hab
    · intro a b
      simp only [sortCmp_price, mul_one, Bool.or_eq_true, decide_eq_true_eq, sub_nonpos]
      exact le_total _ _
    · intro a b c hab hbc
      simp only [sortCmp_price, mul_one, decide_eq_true_eq, sub_nonpos] at hab hbc ⊢
      exact le_trans hab hbc
  · intro rs
    have heq : sortResults rs "name" "asc" =
        insertionSortJS (fun a b => decide (sortCmp "name" a b * 1 ≤ 0)) rs := rfl
    rw [heq]
    refine List.Pairwise.imp ?_ (pairwise_insertionSortJS _ ?_ ?_ rs)
    · intro a b hab
      simp only [sortCmp_name, mul_one, decide_eq_true_eq, localeCmp_le_zero] at hab
      exact hab
    · intro a b
      simp only [sortCmp_name, mul_one, Bool.or_eq_true, decide_eq_true_eq,
        localeCmp_le_zero]
      exact le_total _ _
    · intro a b c hab hbc
      simp only [sortCmp_name, mul_one, decide_eq_true_eq, localeCmp_le_zero]
        at hab hbc ⊢
      exact le_trans hab hbc
  · intro rs
    have heq : sortResults rs "rating" "asc" =
        insertionSortJS (fun a b => decide (sortCmp "rating" a b * 1 ≤ 0)) rs := rfl
    rw [heq]
    refine List.Pairwise.imp ?_ (pairwise_insertionSortJS _ ?_ ?_ rs)
    · intro a b hab
      simp only [sortCmp_rating, mul_one, decide_eq_true_eq, sub_nonpos] at hab
      exact hab
    · intro a b
      simp only [sortCmp_rating, mul_one, Bool.or_eq_true, decide_eq_true_eq, sub_nonpos]
      exact le_total _ _
    · intro a b c hab hbc
      simp only [sortCmp_rating, mul_one, decide_eq_true_eq, sub_nonpos] at hab hbc ⊢
      exact le_trans hbc hab

/-- **C8** witness: the unknown-key fallback clause of
`c8_sort_keys_amended` at the concrete key `"zzz"`. -/
theorem c8_sort_keys_witness :
    sortResults [stockRecHigh, stockRecLow] "zzz" "asc" =
      sortResults [stockRecHigh, stockRecLow] "relevance" "asc" :=
  c8_sort_keys_amended.2.2.1 [stockRecHigh, stockRecLow] "asc" "zzz"
    (by decide) (by decide) (by decide) (by decide)

/-- **C8** counterexample: sorting two records by `"stock"` ascending
returns stock quantities `[9, 2]` — the relevance order, not stock order —
because the comparator has no `stock` case, refuting the claim that the
stock key compares numerically on `stock_quantity`. -/
theorem c8_sort_keys_cex :
    (sortResults [stockRecHigh, stockRecLow] "stock" "asc").map
        (fun r => r.item.stock_quantity) = [9, 2] ∧
    ¬ ((9 : Int) ≤ 2) := by
  refine ⟨by decide, by decide⟩

/-- **C2** (amended): for two items with the same positive query-derived
score `s`, exactly one featured, all other boost conditions off and no
clamp (`1.2·s ≤ 1`), the featured item's final score is exactly `6/5`
times the other's; under the relevance key the direction `"asc"` — which
yields the natural descending-score order — puts the featured item first,
while the *default* direction `"desc"` inverts that order and returns the
featured item last. -/
theorem c2_featured_boost_amended (pa pb : Product) (s : ℚ) (ma mb : List MatchPair)
    (alga algb : String)
    (hfa : pa.is_featured = true) (hfb : pb.is_featured = false)
    (hba : pa.is_bestseller = false) (hbb : pb.is_bestseller = false)
    (hra : pa.average_rating.getD 0 ≤ 4) (hrb : pb.average_rating.getD 0 ≤ 4)
    (hsa1 : 0 < pa.stock_quantity) (hsa2 : pa.stock_quantity ≤ 10)
    (hsb1 : 0 < pb.stock_quantity) (hsb2 : pb.stock_quantity ≤ 10)
    (hs : 0 < s) (hclamp : s * (6/5) ≤ 1) :
    applyAdvancedScoring
        [{ item := pb, score := s, matchesList := mb, algorithm := algb },
         { item := pa, score := s, matchesList := ma, algorithm := alga }] =
      [{ item := pb, score := s, matchesList := mb, algorithm := algb },
       { item := pa, score := s * (6/5), matchesList := ma, algorithm := alga }] ∧
    sortResults
        [{ item := pb, score := s, matchesList := mb, algorithm := algb },
         { item := pa, score := s * (6/5), matchesList := ma, algorithm := alga }]
        "relevance" "asc" =
      [{ item := pa, score := s * (6/5), matchesList := ma, algorithm := alga },
       { item := pb, score := s, matchesList := mb, algorithm := algb }] ∧
    sortResults
        [{ item := pb, score := s, matchesList := mb, algorithm := algb },
         { item := pa, score := s * (6/5), matchesList := ma, algorithm := alga }]
        "relevance" "desc" =
      [{ item := pb, score := s, matchesList := mb, algorithm := algb },
       { item := pa, score := s * (6/5), matchesList := ma, algorithm := alga }] := by
  have hs1 : s ≤ s * (6/5) := by nlinarith
  have hsle1 : s ≤ 1 := le_trans hs1 hclamp
  have hbb' : boostScore pb s = s := by
    simp only [boostScore, hfb, hbb, Bool.false_eq_true, if_false,
      if_neg (not_lt.mpr hrb), if_neg (not_lt.mpr hsb2), if_neg (not_le.mpr hsb1)]
    exact min_eq_left hsle1
  have haa : boostScore pa s = s * (6/5) := by
    unfold boostScore
    rw [if_pos hfa]
    simp only [hba, Bool.false_eq_true, if_false, if_neg (not_lt.mpr hra),
      if_neg (not_lt.mpr hsa2), if_neg (not_le.mpr hsa1)]
    exact min_eq_left hclamp
  refine ⟨by simp [applyAdvancedScoring, haa, hbb'], ?_, ?_⟩
  · have e : sortResults
        [{ item := pb, score := s, matchesList := mb, algorithm := algb },
         { item := pa, score := s * (6/5), matchesList := ma, algorithm := alga }]
        "relevance" "asc" =
        insertionSortJS (fun a b => decide (sortCmp "relevance" a b * 1 ≤ 0))
          [{ item := pb, score := s, matchesList := mb, algorithm := algb },
           { item := pa, score := s * (6/5), matchesList := ma, algorithm := alga }] := rfl
    have hc1 : decide (sortCmp "relevance"
        ({ item := pb, score := s, matchesList := mb, algorithm := algb } : MatchRec)
        ({ item := pa, score := s * (6/5), matchesList := ma, algorithm := alga } : MatchRec)
          * (1 : ℚ) ≤ 0) = false := by
      have he : sortCmp "relevance"
          ({ item := pb, score := s, matchesList := mb, algorithm := algb } : MatchRec)
          ({ item := pa, score := s * (6/5), matchesList := ma, algorithm := alga } :
            MatchRec) * (1 : ℚ) = s * (6/5) - s := by
        rw [sortCmp_relevance]
        ring
      rw [he]
      simp only [decide_eq_false_iff_not, not_le]
      nlinarith
    rw [e]
    simp only [insertionSortJS, stableInsert, hc1, Bool.false_eq_true, if_false]
  · have e : sortResults
        [{ item := pb, score := s, matchesList := mb, algorithm := algb },
         { item := pa, score := s * (6/5), matchesList := ma, algorithm := alga }]
        "relevance" "desc" =
        insertionSortJS (fun a b => decide (sortCmp "relevance" a b * (-1) ≤ 0))
          [{ item := pb, score := s, matchesList := mb, algorithm := algb },
           { item := pa, score := s * (6/5), matchesList := ma, algorithm := alga }] := rfl
    have hc2 : decide (sortCmp "relevance"
        ({ item := pb, score := s, matchesList := mb, algorithm := algb } : MatchRec)
        ({ item := pa, score := s * (6/5), matchesList := ma, algorithm := alga } : MatchRec)
          * (-1 : ℚ) ≤ 0) = true := by
      have he : sortCmp "relevance"
          ({ item := pb, score := s, matchesList := mb, algorithm := algb } : MatchRec)
          ({ item := pa, score := s * (6/5), matchesList := ma, algorithm := alga } :
            MatchRec) * (-1 : ℚ) = s - s * (6/5) := by
        rw [sortCmp_relevance]
        ring
      rw [he]
      simp only [decide_eq_true_eq]
      nlinarith
    rw [e]
    simp only [insertionSortJS, stableInsert, hc2, if_true]

set_option maxRecDepth 10000

/-- **C2** counterexample: `featuredProd` and `plainProd` earn the same
query-derived score `1/5` for `"phone"`, and the featured item's final
score is `6/25 = 1.2 × 1/5`; yet under the relevance key with the default
direction (`desc`) the response lists the *non-featured* item first —
`[(2, 1/5), (1, 6/25)]` — because the `desc` multiplier inverts the
already-descending relevance comparator, refuting the claim that the
featured item appears before the non-featured one by default. -/
theorem c2_featured_boost_cex :
    ((search [] [featuredProd, plainProd] phoneParams).1.results).map
        (fun r => (r.item.id, r.score)) = [(2, 1/5), (1, 6/25)] ∧
    featuredProd.is_featured = true ∧ plainProd.is_featured = false ∧
    featuredProd.id = 1 ∧ plainProd.id = 2 ∧
    phoneParams.sortBy = none ∧ phoneParams.sortOrder = none ∧
    ((6 : ℚ)/25) = (6/5) * (1/5) := by
  refine ⟨by decide, rfl, rfl, rfl, rfl, rfl, rfl, by decide⟩

/-- **C2** witness: `c2_featured_boost_amended` at the concrete pair
`featuredProd` / `plainProd` with shared query-derived score `1/2`. -/
theorem c2_featured_boost_witness :
    applyAdvancedScoring
        [{ item := plainProd, score := 1/2, matchesList := [], algorithm := "" },
         { item := featuredProd, score := 1/2, matchesList := [], algorithm := "" }] =
      [{ item := plainProd, score := 1/2, matchesList := [], algorithm := "" },
       { item := featuredProd, score := (1:ℚ)/2 * (6/5), matchesList := [],
         algorithm := "" }] ∧
    sortResults
        [{ item := plainProd, score := 1/2, matchesList := [], algorithm := "" },
         { item := featuredProd, score := (1:ℚ)/2 * (6/5), matchesList := [],
           algorithm := "" }] "relevance" "asc" =
      [{ item := featuredProd, score := (1:ℚ)/2 * (6/5), matchesList := [],
         algorithm := "" },
       { item := plainProd, score := 1/2, matchesList := [], algorithm := "" }] ∧
    sortResults
        [{ item := plainProd, score := 1/2, matchesList := [], algorithm := "" },
         { item := featuredProd, score := (1:ℚ)/2 * (6/5), matchesList := [],
           algorithm := "" }] "relevance" "desc" =
      [{ item := plainProd, score := 1/2, matchesList := [], algorithm := "" },
       { item := featuredProd, score := (1:ℚ)/2 * (6/5), matchesList := [],
         algorithm := "" }] :=
  c2_featured_boost_amended featuredProd plainProd (1/2) [] [] "" ""
    rfl rfl rfl rfl (by norm_num [featuredProd]) (by norm_num [plainProd])
    (by decide) (by decide) (by decide) (by decide) (by norm_num) (by norm_num)

/-- **C7** witness: `c7_cache_expiry` on a concrete state holding an
entry that expired at instant 1000, looked up at instant 2000. -/
theorem c7_cache_expiry_witness :
    (searchProducts pixelCachedState 2000 pixelProds pixelParams).1 =
      (if pixelProds.isEmpty then emptyResult pixelParams
       else enhanceSearchResults
         (search pixelCachedState.popularSearches pixelProds pixelParams).1) ∧
    lookupKey (searchProducts pixelCachedState 2000 pixelProds pixelParams).2.searchCache
        (generateCacheKey pixelParams) =
      some { data := (searchProducts pixelCachedState 2000 pixelProds pixelParams).1,
             expiry := 2000 + cacheExpiry } :=
  c7_cache_expiry pixelCachedState 2000 pixelProds pixelParams
    { data := emptyResult pixelParams, expiry := 1000 } (by decide) (by decide)

end SmartSearch
